import Mathlib

/-!
Verification of the tecs ECS core (src/tecs/tecs/src/ecs.cpp and
src/tecs/tecs/include/tecs/ecs.h), shallowly embedded in Lean.

Machine integers are modelled as Nat with the exact masks the source
applies; containers are modelled as lists:
  - std::vector as a Lean list in the same order (push_back appends at
    the end, back is the last element);
  - std::unordered_map as an association list whose find/insert/erase
    respect key equality exactly (iteration order of an unordered_map is
    unspecified in C++, and no theorem below depends on the order of an
    association list beyond the key-set semantics);
  - std::set of entities as a duplicate-free list with membership-guarded
    insertion and filtering erasure.
Fallible steps - a debug assert firing, an out-of-range vector subscript
(undefined behaviour in release builds), std::map::at throwing - are
modelled as the none case of Option.
-/

namespace Tecs

/-- Bit layout constants of tecs::Entity (ecs.h lines 139-146). -/
def VALID_SHIFT : Nat := 0

/-- Shift of the 31-bit id field (ecs.h line 140). -/
def ID_SHIFT : Nat := 1

/-- Shift of the 32-bit generation field (ecs.h line 141). -/
def GEN_SHIFT : Nat := 32

/-- Mask for the validity bit (ecs.h line 144). -/
def VALID_MASK : Nat := 1 <<< VALID_SHIFT

/-- Mask for the 31-bit id field (ecs.h line 145). -/
def ID_MASK : Nat := (1 <<< 31) - 1

/-- Mask for the 32-bit generation field (ecs.h line 146). -/
def GEN_MASK : Nat := (1 <<< 32) - 1

/-- An entity is one 64-bit word packing validity, id and generation
(field bits_ of tecs::Entity). The Nat is kept below 2 to the 64 by
every constructor of the source; theorems that quantify over raw values
carry that bound as a hypothesis. -/
structure Entity where
  bits : Nat
deriving DecidableEq

/-- Entity::MakeBits (ecs.cpp lines 70-84): pack validity, id and
generation, masking id to 31 bits and generation to 32 bits. -/
def Entity.MakeBits (id gen : Nat) (valid : Bool) : Nat :=
  (((if valid then 1 else 0) &&& 1) <<< VALID_SHIFT) |||
  ((id &&& ID_MASK) <<< ID_SHIFT) |||
  ((gen &&& GEN_MASK) <<< GEN_SHIFT)

/-- Entity::Entity(uint32_t id, uint32_t gen) (ecs.cpp lines 16-20):
a valid entity with the given id and generation. -/
def Entity.make (id gen : Nat) : Entity :=
  { bits := Entity.MakeBits id gen true }

/-- Entity::GetID (ecs.cpp lines 22-25). -/
def Entity.GetID (e : Entity) : Nat :=
  (e.bits >>> ID_SHIFT) &&& ID_MASK

/-- Entity::GetGen (ecs.cpp lines 27-30). -/
def Entity.GetGen (e : Entity) : Nat :=
  (e.bits >>> GEN_SHIFT) &&& GEN_MASK

/-- Entity::IsValid (ecs.cpp lines 32-35). -/
def Entity.IsValid (e : Entity) : Bool :=
  (e.bits &&& VALID_MASK) != 0

/-- Entity::operator== (ecs.cpp lines 42-45): raw comparison of the
packed words. -/
def Entity.beq (a b : Entity) : Bool :=
  a.bits == b.bits

/-- Entity::operator< (ecs.cpp lines 52-68): generation-major, then id;
the validity bit is ignored. -/
def Entity.lt (a b : Entity) : Bool :=
  if a.GetGen ≠ b.GetGen then decide (a.GetGen < b.GetGen)
  else decide (a.GetID < b.GetID)

theorem Entity.getID_eq_mod (e : Entity) : e.GetID = (e.bits / 2) % 2 ^ 31 := by
  show (e.bits >>> 1) &&& ((1 <<< 31) - 1) = (e.bits / 2) % 2 ^ 31
  rw [Nat.shiftRight_eq_div_pow, Nat.shiftLeft_eq, one_mul,
    Nat.and_pow_two_sub_one_eq_mod, pow_one]

theorem Entity.getGen_eq_mod (e : Entity) : e.GetGen = (e.bits / 2 ^ 32) % 2 ^ 32 := by
  show (e.bits >>> 32) &&& ((1 <<< 32) - 1) = (e.bits / 2 ^ 32) % 2 ^ 32
  rw [Nat.shiftRight_eq_div_pow, Nat.shiftLeft_eq, one_mul,
    Nat.and_pow_two_sub_one_eq_mod]

theorem Entity.isValid_eq_mod (e : Entity) : e.IsValid = decide (e.bits % 2 = 1) := by
  unfold Entity.IsValid VALID_MASK VALID_SHIFT
  have h : e.bits &&& 1 <<< 0 = e.bits % 2 := by
    simp [Nat.and_one_is_mod e.bits]
  rw [h]
  rcases Nat.mod_two_eq_zero_or_one e.bits with h2 | h2 <;> simp [h2]

/-- C10. Entity values are equal exactly when all three packed fields
match, and the strict order is generation-major then id, ignoring
validity. Quantifies over all 64-bit entity words (the bound is the
width of the bits_ member). -/
theorem entity_eq_and_lt_characterization (a b : Entity)
    (ha : a.bits < 2 ^ 64) (hb : b.bits < 2 ^ 64) :
    (Entity.beq a b = true ↔
      (a.GetID = b.GetID ∧ a.GetGen = b.GetGen ∧ a.IsValid = b.IsValid)) ∧
    (Entity.lt a b = true ↔
      (a.GetGen < b.GetGen ∨ (a.GetGen = b.GetGen ∧ a.GetID < b.GetID))) := by
  constructor
  · have hiff : Entity.beq a b = true ↔ a.bits = b.bits := by
      simp [Entity.beq]
    rw [hiff, Entity.getID_eq_mod, Entity.getID_eq_mod, Entity.getGen_eq_mod,
      Entity.getGen_eq_mod, Entity.isValid_eq_mod, Entity.isValid_eq_mod]
    constructor
    · intro h
      simp [h]
    · rintro ⟨h1, h2, h3⟩
      have h3' : a.bits % 2 = b.bits % 2 := by
        rcases Nat.mod_two_eq_zero_or_one a.bits with ha2 | ha2 <;>
          rcases Nat.mod_two_eq_zero_or_one b.bits with hb2 | hb2 <;>
            simp [ha2, hb2] at h3 ⊢
      omega
  · unfold Entity.lt
    by_cases h : a.GetGen = b.GetGen
    · simp [h]
    · rw [if_pos h]
      simp only [decide_eq_true_eq]
      constructor
      · intro hlt
        exact Or.inl hlt
      · rintro (hlt | ⟨heq, _⟩)
        · exact hlt
        · exact absurd heq h

/-- Witness for entity_eq_and_lt_characterization at two concrete
entities. -/
theorem entity_eq_and_lt_characterization_witness :
    (Entity.make 3 7).bits < 2 ^ 64 ∧ (Entity.make 4 7).bits < 2 ^ 64 ∧
    ((Entity.beq (Entity.make 3 7) (Entity.make 4 7) = true ↔
      ((Entity.make 3 7).GetID = (Entity.make 4 7).GetID ∧
       (Entity.make 3 7).GetGen = (Entity.make 4 7).GetGen ∧
       (Entity.make 3 7).IsValid = (Entity.make 4 7).IsValid)) ∧
     (Entity.lt (Entity.make 3 7) (Entity.make 4 7) = true ↔
      ((Entity.make 3 7).GetGen < (Entity.make 4 7).GetGen ∨
       ((Entity.make 3 7).GetGen = (Entity.make 4 7).GetGen ∧
        (Entity.make 3 7).GetID < (Entity.make 4 7).GetID)))) :=
  ⟨by decide, by decide,
    entity_eq_and_lt_characterization (Entity.make 3 7) (Entity.make 4 7)
      (by decide) (by decide)⟩

/-! Association-list model of std::unordered_map and std::set. -/

/-- Lookup by key, the semantics of unordered_map::find and
unordered_map::at (the latter throws when the result here is none). -/
def mapFind {α β : Type} [DecidableEq α] : List (α × β) → α → Option β
  | [], _ => none
  | (k', v) :: rest, k => if k' = k then some v else mapFind rest k

/-- Insert or overwrite a key, the semantics of the assignment form of
unordered_map::operator[]. -/
def mapInsert {α β : Type} [DecidableEq α] : List (α × β) → α → β → List (α × β)
  | [], k, v => [(k, v)]
  | (k', v') :: rest, k, v =>
    if k' = k then (k, v) :: rest else (k', v') :: mapInsert rest k v

/-- Read through unordered_map::operator[]: return the mapped value,
default-inserting when the key is absent. Returns the updated map and
the value found or created. -/
def mapGetOrInsert {α β : Type} [DecidableEq α] (m : List (α × β)) (k : α) (d : β) :
    List (α × β) × β :=
  match mapFind m k with
  | some v => (m, v)
  | none => (m ++ [(k, d)], d)

/-- Insertion into a std::set represented as a duplicate-free list:
a no-op when the element is already present. -/
def setInsert {α : Type} [DecidableEq α] (s : List α) (x : α) : List α :=
  if x ∈ s then s else s ++ [x]

/-- Erasure from a std::set represented as a list. -/
def setErase {α : Type} [DecidableEq α] (s : List α) (x : α) : List α :=
  s.filter (fun y => y ≠ x)

/-- Write to a std::vector subscript; none models the out-of-range
subscript, which is undefined behaviour in the source. -/
def vecSet {α : Type} (l : List α) (i : Nat) (x : α) : Option (List α) :=
  if i < l.length then some (l.set i x) else none

/-- State of tecs::World (ecs.h lines 662-677). Component payloads are
opaque to every operation the claims mention, so the inner map from
component id to unique_ptr of Component is modelled by its key set, a
duplicate-free list of component ids. -/
structure World where
  entities_to_components_map : List (Entity × List Nat)
  component_to_entities_map : List (Nat × List Entity)
  entities : List Entity
  entity_validity : List Bool
  free_entities : List Entity
deriving DecidableEq

/-- A default-constructed World: all containers empty. -/
def World.empty : World :=
  { entities_to_components_map := []
    component_to_entities_map := []
    entities := []
    entity_validity := []
    free_entities := [] }

/-- World::CheckEntityCondition (ecs.cpp lines 284-296). The source
guards the subscript with a strict greater-than comparison against the
vector size, so an id equal to the size slips past the guard; the
subscript that follows is then out of range, modelled as none. -/
def World.CheckEntityCondition (w : World) (e : Entity) : Option Bool := do
  if e.GetID > w.entities.length then return false
  let valid ← w.entity_validity[e.GetID]?
  if !valid then return false
  let stored ← w.entities[e.GetID]?
  if stored ≠ e then return false
  return true

/-- World::CheckEntityValidity (ecs.cpp lines 172-176): the assert
requires the id to be strictly below the vector size (none when it is
not), then validity and the stored entity word are compared; the
logical-and short-circuits, so the stored entity is only read when the
validity flag is set. -/
def World.CheckEntityValidity (w : World) (e : Entity) : Option Bool := do
  if e.GetID ≥ w.entities.length then failure
  let valid ← w.entity_validity[e.GetID]?
  if !valid then return false
  let stored ← w.entities[e.GetID]?
  return decide (stored = e)

/-- World::CreateEntity (ecs.cpp lines 104-136): pop the free list and
revalidate the slot with the generation advanced by one, or append a
fresh slot with generation zero. The reuse branch never writes the
regenerated entity back into the entities vector. Generation arithmetic
wraps at 32 bits through the mask in MakeBits. -/
def World.CreateEntity (w : World) : Option (World × Entity) :=
  match w.free_entities.getLast? with
  | some ent => do
    let validity' ← vecSet w.entity_validity ent.GetID true
    let new_entity := Entity.make ent.GetID (ent.GetGen + 1)
    return ({ w with free_entities := w.free_entities.dropLast
                     entity_validity := validity' }, new_entity)
  | none =>
    let new_entity := Entity.make w.entities.length 0
    some ({ w with entities := w.entities ++ [new_entity]
                   entity_validity := w.entity_validity ++ [true] }, new_entity)

/-- World::GetHavingComponents (ecs.cpp lines 252-265): reads the
ownership map through unordered_map::at, which throws std::out_of_range
(none here) when the entity has no entry; otherwise collects the key
set of the inner map. -/
def World.GetHavingComponents (w : World) (e : Entity) : Option (List Nat) :=
  mapFind w.entities_to_components_map e

/-- World::View (ecs.cpp lines 272-282): the index set for a component
id, or the shared static empty set when the id has no entry. -/
def World.View (w : World) (cid : Nat) : List Entity :=
  (mapFind w.component_to_entities_map cid).getD []

/-- World::CommitEntity (ecs.cpp lines 138-150): assert the entity
condition, then insert the entity into the index set of every component
it owns. The subscript on the ownership map creates an empty entry for
the entity when none exists. -/
def World.CommitEntity (w : World) (e : Entity) : Option (World × Bool) := do
  let cond ← w.CheckEntityCondition e
  if !cond then failure
  let (m', comps) := mapGetOrInsert w.entities_to_components_map e []
  let cmap := comps.foldl
    (fun acc cid =>
      let (acc', s) := mapGetOrInsert acc cid []
      mapInsert acc' cid (setInsert s e))
    w.component_to_entities_map
  return ({ w with entities_to_components_map := m'
                   component_to_entities_map := cmap }, true)

/-- World::AddComponent (ecs.cpp lines 178-195): assert the entity
condition and that the entity does not already own the component, store
the component in the ownership map, and insert the entity into the
index set only when the map already has an entry for that component id
(created by some earlier commit). -/
def World.AddComponent (w : World) (e : Entity) (cid : Nat) : Option (World × Bool) := do
  let cond ← w.CheckEntityCondition e
  if !cond then failure
  let comps := (mapFind w.entities_to_components_map e).getD []
  if cid ∈ comps then failure
  let m' := mapInsert w.entities_to_components_map e (comps ++ [cid])
  let cmap :=
    match mapFind w.component_to_entities_map cid with
    | some s => mapInsert w.component_to_entities_map cid (setInsert s e)
    | none => w.component_to_entities_map
  return ({ w with entities_to_components_map := m'
                   component_to_entities_map := cmap }, true)

/-- World::RemoveComponent (ecs.cpp lines 197-214): assert range,
validity, generation match and ownership, erase the component id from
the ownership map entry, and erase the entity from the index set when
that set exists. -/
def World.RemoveComponent (w : World) (e : Entity) (cid : Nat) : Option (World × Bool) := do
  if e.GetID ≥ w.entities.length then failure
  let valid ← w.entity_validity[e.GetID]?
  if !valid then failure
  let stored ← w.entities[e.GetID]?
  if stored ≠ e then failure
  let comps := (mapFind w.entities_to_components_map e).getD []
  if cid ∉ comps then failure
  let m' := mapInsert w.entities_to_components_map e (setErase comps cid)
  let cmap :=
    match mapFind w.component_to_entities_map cid with
    | some s => mapInsert w.component_to_entities_map cid (setErase s e)
    | none => w.component_to_entities_map
  return ({ w with entities_to_components_map := m'
                   component_to_entities_map := cmap }, true)

/-- Loop of World::DestroyEntity (ecs.cpp lines 159-161): remove each
listed component id from the entity in turn through RemoveComponent. -/
def World.removeOwnedComponents (w : World) (e : Entity) (cids : List Nat) : Option World :=
  cids.foldlM
    (fun acc cid => do
      let (acc', _) ← acc.RemoveComponent e cid
      return acc')
    w

/-- World::DestroyEntity (ecs.cpp lines 152-170): assert the entity
condition, remove every owned component through RemoveComponent, mark
the slot invalid and push the entity onto the free list. -/
def World.DestroyEntity (w : World) (e : Entity) : Option (World × Bool) := do
  let cond ← w.CheckEntityCondition e
  if !cond then failure
  let cids ← w.GetHavingComponents e
  let w1 ← w.removeOwnedComponents e cids
  let validity' ← vecSet w1.entity_validity e.GetID false
  return ({ w1 with entity_validity := validity'
                    free_entities := w1.free_entities ++ [e] }, true)

/-! Basic facts about the container models. -/

theorem mapFind_mapInsert_self {α β : Type} [DecidableEq α]
    (m : List (α × β)) (k : α) (v : β) :
    mapFind (mapInsert m k v) k = some v := by
  induction m with
  | nil => simp [mapInsert, mapFind]
  | cons p rest ih =>
    by_cases h : p.1 = k
    · simp [mapInsert, mapFind, h]
    · simp [mapInsert, mapFind, h, ih]

theorem mapFind_mapInsert_ne {α β : Type} [DecidableEq α]
    (m : List (α × β)) (k k' : α) (v : β) (h : k' ≠ k) :
    mapFind (mapInsert m k v) k' = mapFind m k' := by
  have hk : ¬k = k' := fun hh => h hh.symm
  induction m with
  | nil => simp [mapInsert, mapFind, hk]
  | cons p rest ih =>
    rcases p with ⟨pk, pv⟩
    by_cases hp : pk = k
    · subst hp
      simp [mapInsert, mapFind, hk]
    · simp [mapInsert, mapFind, hp, ih]

theorem mapFind_append_self {α β : Type} [DecidableEq α]
    (m : List (α × β)) (k : α) (d : β) (h : mapFind m k = none) :
    mapFind (m ++ [(k, d)]) k = some d := by
  induction m with
  | nil => simp [mapFind]
  | cons p rest ih =>
    by_cases hp : p.1 = k
    · simp [mapFind, hp] at h
    · simp [mapFind, hp] at h ⊢
      exact ih h

theorem mem_setInsert_self {α : Type} [DecidableEq α] (s : List α) (x : α) :
    x ∈ setInsert s x := by
  unfold setInsert
  by_cases h : x ∈ s <;> simp [h]

theorem not_mem_setErase_self {α : Type} [DecidableEq α] (s : List α) (x : α) :
    x ∉ setErase s x := by
  unfold setErase
  simp

/-- C1. Refutation trace for the commit invariant: entity A (id 0) gets
component 0 and is committed, which creates the index set for component
id 0; entity B (id 1) then receives component 0 through AddComponent and
is never committed, yet B is a member of View(0), because AddComponent
only tests whether the index set for the component id exists, not
whether this entity was committed. This contradicts the comment on the
insertion (ecs.cpp line 190, which says the entity is added if
committed) and the declaration of the index map (ecs.h line 667, which
says entities that are not committed are not included). -/
theorem uncommitted_entity_enters_view :
    (do
      let (w1, ea) ← World.empty.CreateEntity
      let (w2, eb) ← w1.CreateEntity
      let (w3, _) ← w2.AddComponent ea 0
      let (w4, _) ← w3.CommitEntity ea
      let (w5, _) ← w4.AddComponent eb 0
      return (decide (eb ∈ w5.View 0), decide (eb = Entity.make 1 0))) =
    some (true, true) := by decide

/-- C2. Refutation trace for stale-handle detection: entity 0 of
generation 0 is committed and destroyed, then its id is reused, and
CreateEntity returns the entity with generation 1 as the spec promises;
but the reuse branch of CreateEntity never stores the regenerated
entity into the entities vector, so the old generation-0 handle passes
CheckEntityValidity again (the slot is marked valid and the stored word
still carries generation 0). -/
theorem stale_handle_reported_valid_after_reuse :
    (do
      let (w1, e0) ← World.empty.CreateEntity
      let (w2, _) ← w1.CommitEntity e0
      let (w3, _) ← w2.DestroyEntity e0
      let (w4, e1) ← w3.CreateEntity
      let stale ← w4.CheckEntityValidity e0
      return (decide (e0 = Entity.make 0 0), decide (e1 = Entity.make 0 1), stale)) =
    some (true, true, true) := by decide

/-- C3 counterexample. An entity is committed owning component 0, then
component 1 is added; no entity was ever committed owning component 1,
so its index set does not exist and AddComponent leaves the view of
component 1 empty: the entity is not immediately queryable under the
new component id. -/
theorem add_component_without_index_not_viewable :
    (do
      let (w1, e) ← World.empty.CreateEntity
      let (w2, _) ← w1.AddComponent e 0
      let (w3, _) ← w2.CommitEntity e
      let (w4, _) ← w3.AddComponent e 1
      return (w4.View 1)) = some [] := by decide

/-- C3 amended. Adding a not-yet-owned component to an entity that
satisfies the entity condition succeeds, and the entity becomes a
member of the view of that component id immediately, with no second
commit, exactly when the index set for that id already exists in the
index map; when the index set does not exist, the view of that id stays
empty, so the entity is not in it. -/
theorem add_component_view_iff_index_exists (w : World) (e : Entity) (c : Nat)
    (hcond : w.CheckEntityCondition e = some true)
    (hnot : c ∉ (mapFind w.entities_to_components_map e).getD []) :
    ∃ w', w.AddComponent e c = some (w', true) ∧
      (e ∈ w'.View c ↔ (mapFind w.component_to_entities_map c).isSome) := by
  rcases hm : mapFind w.component_to_entities_map c with _ | s
  · refine ⟨{ w with entities_to_components_map := mapInsert w.entities_to_components_map e (((mapFind w.entities_to_components_map e).getD []) ++ [c]) }, ?_, ?_⟩
    · simp [World.AddComponent, hcond, hnot, hm]
    · simp [World.View, hm]
  · refine ⟨{ w with entities_to_components_map := mapInsert w.entities_to_components_map e (((mapFind w.entities_to_components_map e).getD []) ++ [c]), component_to_entities_map := mapInsert w.component_to_entities_map c (setInsert s e) }, ?_, ?_⟩
    · simp [World.AddComponent, hcond, hnot, hm]
    · simp [World.View, mapFind_mapInsert_self, mem_setInsert_self]

/-- Witness for add_component_view_iff_index_exists: a world holding a
committed entity a (id 0, owning component 0) and a committed entity b
(id 1, owning component 1); adding component 1 to a makes a immediately
visible in the view of component 1 because that index set exists. -/
theorem add_component_view_iff_index_exists_witness :
    (let a := Entity.make 0 0
     let b := Entity.make 1 0
     let w : World :=
       { entities_to_components_map := [(a, [0]), (b, [1])]
         component_to_entities_map := [(0, [a]), (1, [b])]
         entities := [a, b]
         entity_validity := [true, true]
         free_entities := [] }
     w.CheckEntityCondition a = some true ∧
     1 ∉ (mapFind w.entities_to_components_map a).getD [] ∧
     ∃ w', w.AddComponent a 1 = some (w', true) ∧
       (a ∈ w'.View 1 ↔ (mapFind w.component_to_entities_map 1).isSome)) := by
  refine ⟨by decide, by decide, ?_⟩
  exact add_component_view_iff_index_exists _ _ 1 (by decide) (by decide)

/-- C7 counterexample. A freshly created entity is valid but has no
entry in the ownership map; GetHavingComponents reads the map through
unordered_map::at, which throws std::out_of_range (none) instead of
returning an empty list. -/
theorem get_having_components_fails_when_unregistered :
    (do
      let (w1, e) ← World.empty.CreateEntity
      return (w1.GetHavingComponents e, w1.CheckEntityValidity e)) =
    some (none, some true) := by decide

/-- C7 amended. For an entity satisfying the entity condition: when the
ownership map has an entry, GetHavingComponents returns exactly its key
set; when it has none, GetHavingComponents fails (none, the modelled
std::out_of_range), and committing the entity first creates an empty
entry through the map subscript, after which GetHavingComponents
returns the empty list. -/
theorem get_having_components_exact_or_fails (w : World) (e : Entity)
    (hcond : w.CheckEntityCondition e = some true) :
    (∀ comps, mapFind w.entities_to_components_map e = some comps →
        w.GetHavingComponents e = some comps) ∧
    (mapFind w.entities_to_components_map e = none →
        w.GetHavingComponents e = none ∧
        ∃ w', w.CommitEntity e = some (w', true) ∧
          w'.GetHavingComponents e = some []) := by
  constructor
  · intro comps h
    exact h
  · intro h
    refine ⟨h, ?_⟩
    refine ⟨{ w with entities_to_components_map := w.entities_to_components_map ++ [(e, [])] }, ?_, ?_⟩
    · simp [World.CommitEntity, hcond, mapGetOrInsert, h]
    · exact mapFind_append_self _ _ _ h

/-- Witness for get_having_components_exact_or_fails on a world with
one fresh valid entity that has no ownership entry. -/
theorem get_having_components_exact_or_fails_witness :
    (let e := Entity.make 0 0
     let w : World :=
       { entities_to_components_map := []
         component_to_entities_map := []
         entities := [e]
         entity_validity := [true]
         free_entities := [] }
     w.CheckEntityCondition e = some true ∧
     ((∀ comps, mapFind w.entities_to_components_map e = some comps →
         w.GetHavingComponents e = some comps) ∧
      (mapFind w.entities_to_components_map e = none →
         w.GetHavingComponents e = none ∧
         ∃ w', w.CommitEntity e = some (w', true) ∧
           w'.GetHavingComponents e = some []))) :=
  ⟨by decide, get_having_components_exact_or_fails _ _ (by decide)⟩

/-- C8. At the boundary, an entity id equal to the number of allocated
slots passes the strict greater-than range guard of
CheckEntityCondition and the validity subscript is out of range
(undefined behaviour, none here), while any id strictly greater than
the slot count is rejected by the guard with the defined result false.
This contradicts the assert of CheckEntityValidity (ecs.cpp line 174),
which documents strictly-below-size as the in-range condition. -/
theorem check_entity_condition_boundary_out_of_range :
    (do
      let (w1, _) ← World.empty.CreateEntity
      return (w1.CheckEntityCondition (Entity.make 1 0),
              w1.CheckEntityCondition (Entity.make 2 0))) =
    some (none, some false) := by decide

/-- C9. A component id with no entry in the index map yields the empty
view. The View model is a pure total function of the world state, so it
cannot fail and repeated calls with the same arguments are literally
the same value, matching the shared static empty set of the source. -/
theorem view_unindexed_returns_empty (w : World) (c : Nat)
    (h : mapFind w.component_to_entities_map c = none) :
    w.View c = [] := by
  unfold World.View
  rw [h]
  rfl

/-- Witness for view_unindexed_returns_empty on a world whose index map
is empty. -/
theorem view_unindexed_returns_empty_witness :
    mapFind World.empty.component_to_entities_map 5 = none ∧
    World.empty.View 5 = [] :=
  ⟨by decide, view_unindexed_returns_empty World.empty 5 (by decide)⟩

/-! Model of EntityObject and EntityObjectGraph (ecs.cpp lines 344-436).
An EntityObject is observed by the graph code only through five things:
the validity its entity handle reports against the world (a fixed
boolean during one pass, since neither Compile nor Update mutates the
world), its is_started_ flag, and the booleans its user-defined OnStart
and OnUpdate hooks return. The hooks are opaque user code; their
invocation is recorded in per-object call counters so that theorems can
state which objects were ticked in a pass. -/

structure EntityObject where
  valid : Bool
  started : Bool
  startOk : Bool
  updateOk : Bool
  startCalls : Nat
  updateCalls : Nat
deriving DecidableEq

/-- State of tecs::EntityObjectGraph (ecs.h lines 1122-1128). -/
structure EntityObjectGraph where
  entity_objects : List EntityObject
  update_order : List Nat
deriving DecidableEq

/-- First loop of EntityObjectGraph::Compile (ecs.cpp lines 377-385):
indices of the objects whose entity handle reports invalid, in
ascending order. -/
def collectInvalidIndices (objs : List EntityObject) : List Nat :=
  (List.range objs.length).filter
    (fun i =>
      match objs.get? i with
      | some o => !o.valid
      | none => false)

/-- Second loop of EntityObjectGraph::Compile (ecs.cpp lines 388-398):
erase the marked indices from the object vector, iterating the marked
list from its back to its front so each stored index is still in range
when erased. -/
def eraseMarked (objs : List EntityObject) (idxs : List Nat) : List EntityObject :=
  idxs.reverse.foldl (fun acc i => acc.eraseIdx i) objs

/-- EntityObjectGraph::Compile (ecs.cpp lines 368-408): clear the
update order, prune objects whose entity handle reports invalid,
rebuild the update order as the index sequence over the remaining
objects, and report failure exactly when that order is empty. -/
def EntityObjectGraph.Compile (g : EntityObjectGraph) : EntityObjectGraph × Bool :=
  let idxs := collectInvalidIndices g.entity_objects
  let objs' := eraseMarked g.entity_objects idxs
  let order := List.range objs'.length
  ({ entity_objects := objs', update_order := order }, !order.isEmpty)

/-- One iteration of the loop body of EntityObjectGraph::Update
(ecs.cpp lines 418-432): a not-yet-started object has OnStart invoked
and is marked started only when OnStart succeeds; a started object has
OnUpdate invoked; the boolean is the continue flag of the pass. -/
def EntityObject.step (o : EntityObject) : EntityObject × Bool :=
  if !o.started then
    let o1 := { o with startCalls := o.startCalls + 1 }
    if !o.startOk then (o1, false)
    else ({ o1 with started := true }, true)
  else
    ({ o with updateCalls := o.updateCalls + 1 }, o.updateOk)

/-- Loop of EntityObjectGraph::Update over the compiled order (ecs.cpp
lines 413-433): each index is dereferenced into the object vector (none
models an out-of-range access), the object is stepped in place, and a
false continue flag stops the pass immediately. -/
def EntityObjectGraph.UpdateAux : List EntityObject → List Nat → Option (List EntityObject × Bool)
  | objs, [] => some (objs, true)
  | objs, i :: rest =>
    match objs.get? i with
    | none => none
    | some o =>
      let p := o.step
      if p.2 then EntityObjectGraph.UpdateAux (objs.set i p.1) rest
      else some (objs.set i p.1, false)

/-- EntityObjectGraph::Update (ecs.cpp lines 410-436). -/
def EntityObjectGraph.Update (g : EntityObjectGraph) : Option (EntityObjectGraph × Bool) :=
  (EntityObjectGraph.UpdateAux g.entity_objects g.update_order).map
    (fun r => ({ g with entity_objects := r.1 }, r.2))

/-- Sequential reference form of the update loop, used to state and
prove the characterization of UpdateAux on the compiled order. -/
def updateSeq : List EntityObject → List EntityObject × Bool
  | [] => ([], true)
  | o :: rest =>
    let p := o.step
    if p.2 then
      let q := updateSeq rest
      (p.1 :: q.1, q.2)
    else (p.1 :: rest, false)

theorem collectInvalidIndices_cons (o : EntityObject) (rest : List EntityObject) :
    collectInvalidIndices (o :: rest) =
      (if o.valid then [] else [0]) ++ (collectInvalidIndices rest).map Nat.succ := by
  unfold collectInvalidIndices
  rw [List.length_cons, List.range_succ_eq_map, List.filter_cons, List.filter_map]
  have hcomp :
      ((fun i =>
        match (o :: rest).get? i with
        | some o => !o.valid
        | none => false) ∘ Nat.succ) =
      (fun i =>
        match rest.get? i with
        | some o => !o.valid
        | none => false) := by
    funext i
    simp [Function.comp, List.get?_cons_succ]
  rw [hcomp]
  cases hv : o.valid <;> simp [List.get?_cons_zero, hv]

theorem foldl_eraseIdx_mapSucc {α : Type} (js : List Nat) (o : α) (l : List α) :
    List.foldl (fun acc i => acc.eraseIdx i) (o :: l) (js.map Nat.succ) =
      o :: List.foldl (fun acc i => acc.eraseIdx i) l js := by
  induction js generalizing l with
  | nil => rfl
  | cons j js ih =>
    simp only [List.map_cons, List.foldl_cons, List.eraseIdx_cons_succ]
    exact ih (l.eraseIdx j)

theorem eraseMarked_collect (objs : List EntityObject) :
    eraseMarked objs (collectInvalidIndices objs) =
      objs.filter (fun o => o.valid) := by
  have hrev : ∀ (l : List EntityObject) (idxs : List Nat),
      List.foldl (fun acc i => acc.eraseIdx i) l idxs.reverse = eraseMarked l idxs :=
    fun _ _ => rfl
  induction objs with
  | nil => rfl
  | cons o rest ih =>
    rw [collectInvalidIndices_cons]
    cases hv : o.valid
    · simp only [Bool.false_eq_true, if_false]
      unfold eraseMarked
      rw [List.cons_append, List.nil_append, List.reverse_cons,
        List.foldl_append, ← List.map_reverse, foldl_eraseIdx_mapSucc,
        hrev]
      simp only [List.foldl_cons, List.foldl_nil, List.eraseIdx_cons_zero]
      rw [ih, List.filter_cons]
      simp [hv]
    · simp only [if_true, List.nil_append]
      unfold eraseMarked
      rw [← List.map_reverse, foldl_eraseIdx_mapSucc, hrev, ih,
        List.filter_cons]
      simp [hv]

/-- C5. Compile keeps exactly the objects whose entity handle reports
valid, in their original storage (insertion) order, rebuilds the update
order as the index sequence over those remaining objects, and returns
false exactly when no valid object remains. -/
theorem compile_prunes_invalid_and_rebuilds_order (g : EntityObjectGraph) :
    (g.Compile).1.entity_objects = g.entity_objects.filter (fun o => o.valid) ∧
    (g.Compile).1.update_order =
      List.range (g.entity_objects.filter (fun o => o.valid)).length ∧
    ((g.Compile).2 = false ↔ g.entity_objects.filter (fun o => o.valid) = []) := by
  simp only [EntityObjectGraph.Compile, eraseMarked_collect]
  refine ⟨trivial, trivial, ?_⟩
  simp [List.isEmpty_iff, List.range_eq_nil, List.length_eq_zero]

theorem get?_append_length {α : Type} (l1 : List α) (x : α) (l2 : List α) :
    (l1 ++ x :: l2).get? l1.length = some x := by
  induction l1 with
  | nil => rfl
  | cons a l ih => simpa [List.get?_cons_succ] using ih

theorem set_append_length {α : Type} (l1 : List α) (x : α) (l2 : List α) (y : α) :
    (l1 ++ x :: l2).set l1.length y = l1 ++ y :: l2 := by
  induction l1 with
  | nil => rfl
  | cons a l ih => simp [ih]

theorem updateAux_range' (objs : List EntityObject) : ∀ done : List EntityObject,
    EntityObjectGraph.UpdateAux (done ++ objs) (List.range' done.length objs.length) =
      some (done ++ (updateSeq objs).1, (updateSeq objs).2) := by
  induction objs with
  | nil =>
    intro done
    simp [EntityObjectGraph.UpdateAux, updateSeq]
  | cons o rest ih =>
    intro done
    rw [show (o :: rest).length = rest.length + 1 from rfl, List.range'_succ]
    rw [show updateSeq (o :: rest) =
        (let p := o.step
         if p.2 then
           let q := updateSeq rest
           (p.1 :: q.1, q.2)
         else (p.1 :: rest, false)) from rfl]
    simp only [EntityObjectGraph.UpdateAux, get?_append_length]
    rcases hst : o.step with ⟨o', c⟩
    rw [set_append_length]
    cases c
    · simp
    · simp only [if_true, Bool.true_eq_false]
      rw [show done ++ o' :: rest = (done ++ [o']) ++ rest by simp]
      rw [show done.length + 1 = (done ++ [o']).length by simp]
      rw [ih (done ++ [o'])]
      simp

theorem updateAux_range (objs : List EntityObject) :
    EntityObjectGraph.UpdateAux objs (List.range objs.length) =
      some (updateSeq objs) := by
  have h := updateAux_range' objs []
  simpa [List.range_eq_range'] using h

theorem updateSeq_spec (objs : List EntityObject) :
    ∃ k, k ≤ objs.length ∧
      (updateSeq objs).1 = (objs.take k).map (fun o => (o.step).1) ++ objs.drop k ∧
      ((updateSeq objs).2 = true →
        k = objs.length ∧ ∀ o ∈ objs, (o.step).2 = true) ∧
      ((updateSeq objs).2 = false →
        0 < k ∧ (∃ o, objs.get? (k - 1) = some o ∧ (o.step).2 = false) ∧
        ∀ j, j < k - 1 → ∀ o, objs.get? j = some o → (o.step).2 = true) := by
  induction objs with
  | nil =>
    exact ⟨0, by simp [updateSeq]⟩
  | cons o rest ih =>
    rcases hst : o.step with ⟨o', c⟩
    rw [show updateSeq (o :: rest) =
        (let p := o.step
         if p.2 then
           let q := updateSeq rest
           (p.1 :: q.1, q.2)
         else (p.1 :: rest, false)) from rfl]
    cases c
    · refine ⟨1, by simp, ?_, ?_, ?_⟩
      · simp [hst]
      · simp [hst]
      · intro _
        refine ⟨by omega, ⟨o, by simp [hst]⟩, ?_⟩
        intro j hj
        omega
    · rcases ih with ⟨k, hk, hdecomp, htrue, hfalse⟩
      refine ⟨k + 1, by simp; omega, ?_, ?_, ?_⟩
      · simp [hst, hdecomp]
      · intro hres
        simp only [hst, if_true] at hres ⊢
        rcases htrue (by simpa using hres) with ⟨hk', hall⟩
        constructor
        · simp [hk']
        · intro x hx
          rcases List.mem_cons.mp hx with hx | hx
          · subst hx
            simp [hst]
          · exact hall x hx
      · intro hres
        simp only [hst, if_true] at hres
        rcases hfalse (by simpa using hres) with ⟨hkpos, ⟨ob, hob, hob2⟩, hpre⟩
        refine ⟨by omega, ⟨ob, ?_, hob2⟩, ?_⟩
        · rw [show k + 1 - 1 = k from rfl]
          rw [show (o :: rest).get? k = rest.get? (k - 1) by
            cases k with
            | zero => omega
            | succ kk => simp [List.get?_cons_succ]]
          simpa using hob
        · intro j hj x hx
          cases j with
          | zero =>
            simp only [List.get?_cons_zero, Option.some_inj] at hx
            subst hx
            simp [hst]
          | succ jj =>
            simp only [List.get?_cons_succ] at hx
            exact hpre jj (by omega) x hx

/-- C6. Update over the compiled order (the index sequence over the
stored objects) steps each object once in order at its original state:
there is a cut position k such that the result objects are the first k
objects each ticked once followed by the untouched rest (no rollback of
earlier effects), a true result means every object was ticked and every
hook returned true, and a false result means the pass stopped at
position k - 1: that object's hook returned false, every earlier hook
returned true, and every later object was not ticked. Per object, a
not-yet-started object has only OnStart invoked (its update counter is
unchanged that pass) and is marked started exactly when OnStart
succeeds, while a started object has only OnUpdate invoked and the
continue flag is the hook's returned boolean. -/
theorem graph_update_prefix_tick_and_stop (objs : List EntityObject) :
    (∃ k ok,
      k ≤ objs.length ∧
      EntityObjectGraph.Update
          { entity_objects := objs, update_order := List.range objs.length } =
        some ({ entity_objects :=
                  (objs.take k).map (fun o => (o.step).1) ++ objs.drop k,
                update_order := List.range objs.length }, ok) ∧
      (ok = true → k = objs.length ∧ ∀ o ∈ objs, (o.step).2 = true) ∧
      (ok = false →
        0 < k ∧ (∃ o, objs.get? (k - 1) = some o ∧ (o.step).2 = false) ∧
        ∀ j, j < k - 1 → ∀ o, objs.get? j = some o → (o.step).2 = true)) ∧
    (∀ o : EntityObject, o.started = false →
      (o.step).1.startCalls = o.startCalls + 1 ∧
      (o.step).1.updateCalls = o.updateCalls ∧
      (o.step).2 = o.startOk ∧
      (o.step).1.started = o.startOk) ∧
    (∀ o : EntityObject, o.started = true →
      (o.step).1.updateCalls = o.updateCalls + 1 ∧
      (o.step).1.startCalls = o.startCalls ∧
      (o.step).1.started = true ∧
      (o.step).2 = o.updateOk) := by
  refine ⟨?_, ?_, ?_⟩
  · rcases updateSeq_spec objs with ⟨k, hk, hdecomp, htrue, hfalse⟩
    refine ⟨k, (updateSeq objs).2, hk, ?_, htrue, hfalse⟩
    unfold EntityObjectGraph.Update
    simp only []
    rw [updateAux_range]
    simp [hdecomp]
  · intro o ho
    cases hok : o.startOk <;> simp [EntityObject.step, ho, hok]
  · intro o ho
    simp [EntityObject.step, ho]

theorem checkEntityCondition_true_elim (w : World) (e : Entity)
    (h : w.CheckEntityCondition e = some true) :
    e.GetID < w.entities.length ∧
    w.entity_validity[e.GetID]? = some true ∧
    w.entities[e.GetID]? = some e := by
  unfold World.CheckEntityCondition at h
  by_cases h1 : e.GetID > w.entities.length
  · simp [h1] at h
  · rcases hv : w.entity_validity[e.GetID]? with _ | b
    · simp [h1, hv] at h
    · rcases hs : w.entities[e.GetID]? with _ | stored
      · cases b <;> simp [h1, hv, hs] at h
      · cases b
        · simp [h1, hv, hs] at h
        · by_cases he : stored = e
          · subst he
            have hlt : stored.GetID < w.entities.length := by
              by_contra hbad
              rw [List.getElem?_eq_none (by omega)] at hs
              cases hs
            exact ⟨hlt, rfl, rfl⟩
          · simp [h1, hv, hs, he] at h

theorem removeComponent_spec (w : World) (e : Entity) (c : Nat) (comps : List Nat)
    (hid : e.GetID < w.entities.length)
    (hval : w.entity_validity[e.GetID]? = some true)
    (hstored : w.entities[e.GetID]? = some e)
    (hmap : mapFind w.entities_to_components_map e = some comps)
    (hc : c ∈ comps) :
    ∃ w', w.RemoveComponent e c = some (w', true) ∧
      w'.entities = w.entities ∧
      w'.entity_validity = w.entity_validity ∧
      w'.free_entities = w.free_entities ∧
      mapFind w'.entities_to_components_map e = some (setErase comps c) ∧
      e ∉ w'.View c ∧
      (∀ c', c' ≠ c → w'.View c' = w.View c') := by
  rcases hcm : mapFind w.component_to_entities_map c with _ | s
  · refine ⟨{ w with entities_to_components_map := mapInsert w.entities_to_components_map e (setErase comps c) }, ?_, rfl, rfl, rfl, ?_, ?_, ?_⟩
    · simp [World.RemoveComponent, show ¬e.GetID ≥ w.entities.length from by omega,
        hval, hstored, hmap, hc, hcm]
    · exact mapFind_mapInsert_self _ _ _
    · simp [World.View, hcm]
    · intro c' _
      rfl
  · refine ⟨{ w with entities_to_components_map := mapInsert w.entities_to_components_map e (setErase comps c), component_to_entities_map := mapInsert w.component_to_entities_map c (setErase s e) }, ?_, rfl, rfl, rfl, ?_, ?_, ?_⟩
    · simp [World.RemoveComponent, show ¬e.GetID ≥ w.entities.length from by omega,
        hval, hstored, hmap, hc, hcm]
    · exact mapFind_mapInsert_self _ _ _
    · have hfind := mapFind_mapInsert_self w.component_to_entities_map c (setErase s e)
      simp [World.View, hfind, not_mem_setErase_self]
    · intro c' hc'
      have hfind := mapFind_mapInsert_ne w.component_to_entities_map c c' (setErase s e) hc'
      simp [World.View, hfind]

theorem removeOwnedComponents_spec (e : Entity) :
    ∀ (cids : List Nat) (w : World) (comps : List Nat),
    e.GetID < w.entities.length →
    w.entity_validity[e.GetID]? = some true →
    w.entities[e.GetID]? = some e →
    mapFind w.entities_to_components_map e = some comps →
    (∀ c ∈ cids, c ∈ comps) →
    cids.Nodup →
    ∃ w', w.removeOwnedComponents e cids = some w' ∧
      w'.entities = w.entities ∧
      w'.entity_validity = w.entity_validity ∧
      w'.free_entities = w.free_entities ∧
      mapFind w'.entities_to_components_map e =
        some (comps.filter (fun c => c ∉ cids)) ∧
      (∀ c, c ∈ cids ∨ e ∉ w.View c → e ∉ w'.View c) := by
  intro cids
  induction cids with
  | nil =>
    intro w comps _ _ _ hmap _ _
    refine ⟨w, rfl, rfl, rfl, rfl, ?_, ?_⟩
    · simpa using hmap
    · intro c hc
      rcases hc with hc | hc
      · simp at hc
      · exact hc
  | cons c0 rest ih =>
    intro w comps hid hval hstored hmap hsub hnodup
    have hc0 : c0 ∈ comps := hsub c0 (by simp)
    rcases removeComponent_spec w e c0 comps hid hval hstored hmap hc0 with
      ⟨w1, hrem, hent, hvalid, hfree, hmap1, hview1, hviews⟩
    have hstep : w.removeOwnedComponents e (c0 :: rest) =
        w1.removeOwnedComponents e rest := by
      unfold World.removeOwnedComponents
      rw [List.foldlM_cons, hrem]
      rfl
    have hsub1 : ∀ c ∈ rest, c ∈ setErase comps c0 := by
      intro c hcr
      have hcc : c ∈ comps := hsub c (List.mem_cons_of_mem _ hcr)
      have hne : c ≠ c0 := by
        intro hEq
        subst hEq
        exact (List.nodup_cons.mp hnodup).1 hcr
      unfold setErase
      rw [List.mem_filter]
      exact ⟨hcc, by simpa using hne⟩
    rcases ih w1 (setErase comps c0) (by rw [hent]; exact hid)
      (by rw [hvalid]; exact hval) (by rw [hent]; exact hstored) hmap1 hsub1
      (List.nodup_cons.mp hnodup).2 with
      ⟨w'', hloop, hent2, hval2, hfree2, hmap2, hview2⟩
    refine ⟨w'', by rw [hstep]; exact hloop, hent2.trans hent,
      hval2.trans hvalid, hfree2.trans hfree, ?_, ?_⟩
    · rw [hmap2]
      congr 1
      unfold setErase
      rw [List.filter_filter]
      apply List.filter_congr
      intro a _
      by_cases h1 : a = c0 <;> by_cases h2 : a ∈ rest <;> simp [h1, h2]
    · intro c hc
      apply hview2
      by_cases hcr : c ∈ rest
      · exact Or.inl hcr
      · right
        rcases hc with hc | hc
        · have hceq : c = c0 := by
            rcases List.mem_cons.mp hc with h | h
            · exact h
            · exact absurd h hcr
          subst hceq
          exact hview1
        · by_cases hceq : c = c0
          · subst hceq
            exact hview1
          · rw [hviews c hceq]
            exact hc

/-- C4. Destroying a committed valid entity that owns components c1 and
c2 (both views containing it) succeeds, strips every owned component
(the ownership entry becomes empty), evicts the entity from both index
sets, and afterwards CheckEntityValidity reports false. -/
theorem destroy_entity_clears_views_and_invalidates
    (w : World) (e : Entity) (c1 c2 : Nat) (comps : List Nat)
    (hcond : w.CheckEntityCondition e = some true)
    (hmap : mapFind w.entities_to_components_map e = some comps)
    (hnodup : comps.Nodup)
    (hc1 : c1 ∈ comps) (hc2 : c2 ∈ comps)
    (_hv1 : e ∈ w.View c1) (_hv2 : e ∈ w.View c2) :
    ∃ w', w.DestroyEntity e = some (w', true) ∧
      e ∉ w'.View c1 ∧ e ∉ w'.View c2 ∧
      mapFind w'.entities_to_components_map e = some [] ∧
      w'.CheckEntityValidity e = some false := by
  rcases checkEntityCondition_true_elim w e hcond with ⟨hid, hval, hstored⟩
  rcases removeOwnedComponents_spec e comps w comps hid hval hstored hmap
    (fun c hc => hc) hnodup with
    ⟨w1, hloop, hent1, hval1, hfree1, hmap1, hview⟩
  have hfilter : comps.filter (fun c => c ∉ comps) = [] := by
    rw [List.filter_eq_nil_iff]
    intro a ha
    simp [ha]
  have hlenv : e.GetID < w.entity_validity.length := by
    by_contra hbad
    rw [List.getElem?_eq_none (by omega)] at hval
    cases hval
  have hlen1 : e.GetID < w1.entity_validity.length := by
    rw [hval1]
    exact hlenv
  refine ⟨{ w1 with entity_validity := w1.entity_validity.set e.GetID false, free_entities := w1.free_entities ++ [e] }, ?_, ?_, ?_, ?_, ?_⟩
  · simp [World.DestroyEntity, hcond, World.GetHavingComponents, hmap, hloop,
      vecSet, hlen1]
  · exact hview c1 (Or.inl hc1)
  · exact hview c2 (Or.inl hc2)
  · rw [show ({ w1 with entity_validity := w1.entity_validity.set e.GetID false, free_entities := w1.free_entities ++ [e] } : World).entities_to_components_map = w1.entities_to_components_map from rfl, hmap1, hfilter]
  · simp only [World.CheckEntityValidity]
    rw [show ({ w1 with entity_validity := w1.entity_validity.set e.GetID false, free_entities := w1.free_entities ++ [e] } : World).entities = w1.entities from rfl]
    rw [hent1]
    simp [show ¬e.GetID ≥ w.entities.length from by omega,
      List.getElem?_set_self, hlen1]

/-- Witness for destroy_entity_clears_views_and_invalidates: the spec's
own scenario, one committed entity owning components 0 and 1 with both
views containing it. -/
theorem destroy_entity_clears_views_and_invalidates_witness :
    (let e := Entity.make 0 0
     let w : World :=
       { entities_to_components_map := [(e, [0, 1])]
         component_to_entities_map := [(0, [e]), (1, [e])]
         entities := [e]
         entity_validity := [true]
         free_entities := [] }
     w.CheckEntityCondition e = some true ∧
     mapFind w.entities_to_components_map e = some [0, 1] ∧
     ([0, 1] : List Nat).Nodup ∧
     0 ∈ ([0, 1] : List Nat) ∧ 1 ∈ ([0, 1] : List Nat) ∧
     e ∈ w.View 0 ∧ e ∈ w.View 1 ∧
     ∃ w', w.DestroyEntity e = some (w', true) ∧
       e ∉ w'.View 0 ∧ e ∉ w'.View 1 ∧
       mapFind w'.entities_to_components_map e = some [] ∧
       w'.CheckEntityValidity e = some false) :=
  ⟨by decide, by decide, by decide, by decide, by decide, by decide, by decide,
    destroy_entity_clears_views_and_invalidates _ _ 0 1 [0, 1]
      (by decide) (by decide) (by decide) (by decide) (by decide)
      (by decide) (by decide)⟩

end Tecs
